import Mathlib

/-!
# lorcapp: window shell over a hosted UI

Shallow embedding of `app.go`.  The hosted UI (`lorca.UI`), the operating
system calls and the JSON codec are external collaborators: every result they
hand back to this package is an input of the model (the `Host` record, or an
argument of a poller check), and every call this package makes to them is
recorded as an `Event`.

The `sync.RWMutex` of an `App` is a held/free flag.  `Lock` on a held mutex
never returns, so a method that reaches such a `Lock` is reported with
`returned = false`: the goroutine is parked there for good, keeping whatever it
had already changed.

A registered callback is a function value of the host application.  It is
identified by a label, and `Host.body` gives, for each label, the calls its body
makes on the `*App` it is handed.  `checkState` runs these bodies with the lock
held, so a body that calls `Load`, `Ready` or `Dispose` parks there, inside the
check, and the callbacks after it in the list are never reached.  A body is a
finite list of calls: apart from parking on the lock, callbacks return.

The poller `loop` calls `checkBounds` and `checkState` in turn, forever, while
the caller's goroutine calls the methods of `App` (`Wait` is `Dispose` once the
UI is done).  A list of `Op`s is one interleaving of the two, and `run` executes
it; statements about `run` hold for every interleaving.
-/

namespace Lorcapp

/-- A Go `error` value, identified by its message. -/
abbrev Err := String

/-- The `lorca.Bounds` record: window geometry and display mode. -/
structure Bounds where
  Left : Int
  Top : Int
  Width : Int
  Height : Int
  WindowState : String
deriving DecidableEq, Repr

/-- The zero value of `lorca.Bounds` (`var bounds lorca.Bounds`). -/
def Bounds.zero : Bounds :=
  { Left := 0, Top := 0, Width := 0, Height := 0, WindowState := "" }

/-- A registered `func(a *App)`: a function value of the host application,
identified by a label.  What its body does with the `App` is `Host.body`. -/
abbrev Callback := Nat

/-- A call that the body of a callback makes on the `*App` it is handed: one of
the exported methods of `App` that touch its fields (`Wait` ends in `Dispose`;
the methods of the embedded `lorca.UI` leave the struct alone). -/
inductive Call where
  | Load (fn : Callback)
  | Ready (fn : Callback)
  | InjectCSS (css : String)
  | InjectScript (script : String)
  | InjectScriptSrc (url : String)
  | Dispose
deriving DecidableEq, Repr

/-- Which of the two callback slices an invocation iterates over
(`a.load` at the `"interactive"` branch, `a.ready` at the `"complete"` branch). -/
inductive Slot where
  | load
  | ready
deriving DecidableEq, Repr

/-- Calls that leave the package, in program order. -/
inductive Event where
  | mkdirAll (path : String)
  | log (args : List String)
  | uiNew (url dir : String) (width height : Int) (customArgs : List String)
  | setBounds (b : Bounds)
  | queryBounds
  | eval (js : String)
  | invoke (slot : Slot) (fn : Callback)
  | create (path : String)
  | encode (path : String) (indent : String) (b : Bounds)
  | close (path : String)
  | goLoop
deriving DecidableEq, Repr

/-- Results handed back by the operating system, the JSON codec and the UI
library, and the code of the host application's callbacks.
`decode contents i` is `json.Decoder.Decode` into a `*Bounds` that currently
holds `i`: it returns the record as the decoder left it, and the error if any
(a failing decode may already have filled some fields).  `body fn` lists the
calls the callback `fn` makes on the `App`, in order. -/
structure Host where
  currentUser : Except Err String
  join : List String → String
  stat : String → Option Err
  mkdirAll : String → Option Err
  osOpen : String → Except Err String
  decode : String → Bounds → Bounds × Option Err
  close : String → Option Err
  osCreate : String → Option Err
  encode : String → Bounds → Option Err
  uiNew : String → String → Int → Int → List String → Option Err
  setBounds : Bounds → Option Err
  body : Callback → List Call

/-- The `App` struct.  `id` is the `int32` behind the `*int32`; `lock` is
`true` while the mutex is held.  The embedded `lorca.UI` is external and
appears only through `Event`s. -/
structure App where
  id : Int
  dir : String
  state : String
  lock : Bool
  bounds : Bounds
  load : List Callback
  ready : List Callback
deriving DecidableEq, Repr

/-- What a method call left behind: the `App`, the external calls it made, and
whether it returned (`false`: parked on `Lock` forever). -/
structure Outcome where
  app : App
  events : List Event
  returned : Bool
deriving DecidableEq, Repr

/-- Two's-complement wrap of an integer into the `int32` range. -/
def wrapInt32 (x : Int) : Int :=
  (x + 2147483648) % 4294967296 - 2147483648

/-- The value `atomic.AddInt32(p, delta)` returns and stores, for `*p = v`. -/
def atomicAddInt32 (v delta : Int) : Int :=
  wrapInt32 (v + delta)

/-- The call `a.lock.Lock()`: it returns only on a free mutex, which it then holds. -/
def App.Lock (a : App) : Option App :=
  if a.lock then none else some { a with lock := true }

/-- The call `a.lock.Unlock()`. -/
def App.Unlock (a : App) : App :=
  { a with lock := false }

/-- The function `logClose`: close the file at `path`, log a close error. -/
def logClose (h : Host) (path : String) : List Event :=
  match h.close path with
  | some e => [Event.close path, Event.log [e]]
  | none => [Event.close path]

/-- The function `read`: open `path` and decode it into the record `i`.  Returns the record
after the call, the error, and the external calls. -/
def read (h : Host) (path : String) (i : Bounds) : Bounds × Option Err × List Event :=
  match h.osOpen path with
  | Except.error e => (i, some e, [])
  | Except.ok contents =>
    let r := h.decode contents i
    (r.1, r.2, logClose h path)

/-- The function `write`: create `path` and encode `i` into it with two-space indent. -/
def write (h : Host) (path : String) (i : Bounds) : Option Err × List Event :=
  match h.osCreate path with
  | some e => (some e, [Event.create path])
  | none =>
    (h.encode path i, [Event.create path, Event.encode path "  " i] ++ logClose h path)

/-- The function `configDir`: the per-user directory of the application, created if absent. -/
def configDir (h : Host) (name : String) : String × List Event :=
  let base := match h.currentUser with
    | Except.ok home => home
    | Except.error _ => ""
  let path := h.join [base, "AppData", "Local", name]
  match h.stat path with
  | some _ =>
    match h.mkdirAll path with
    | some e => (path, [Event.mkdirAll path, Event.log [e]])
    | none => (path, [Event.mkdirAll path])
  | none => (path, [])

/-- The pair `(*App, error)` returned by `NewApp`, with the external calls made. -/
structure NewAppResult where
  app : Option App
  err : Option Err
  events : List Event
deriving DecidableEq, Repr

/-- The constructor `NewApp`: resolve the config directory, read the saved
bounds or fall back to the caller's size, create the hosted UI, apply the
bounds, build the `App` and start the poller. -/
def NewApp (h : Host) (name url : String) (width height : Int) : NewAppResult :=
  let cd := configDir h name
  let dir := cd.1
  let rd := read h (h.join [dir, "Window.json"]) Bounds.zero
  let size : Int × Int × Bounds :=
    match rd.2.1 with
    | none => (rd.1.Width, rd.1.Height, rd.1)
    | some _ =>
      (width, height,
        { Left := 0, Top := 0, Width := width, Height := height, WindowState := "normal" })
  let width := size.1
  let height := size.2.1
  let bounds := size.2.2
  let pre := cd.2 ++ rd.2.2 ++ [Event.uiNew url dir width height ["--enable-extensions"]]
  match h.uiNew url dir width height ["--enable-extensions"] with
  | some e => { app := none, err := some e, events := pre }
  | none =>
    let e := h.setBounds bounds
    let posLog := match e with
      | some m => [Event.log ["position err:", m]]
      | none => []
    let app : App :=
      { id := 0, dir := dir, bounds := bounds, state := "complete",
        load := [], ready := [], lock := false }
    let startLog := match e with
      | some m => [Event.log ["start err:", m]]
      | none => []
    { app := some app, err := none,
      events := pre ++ [Event.setBounds bounds] ++ posLog ++ startLog ++ [Event.goLoop] }

/-- The method `App.Load`: append to the interactive-callback slice under the lock. -/
def App.Load (a : App) (fn : Callback) : Outcome :=
  match a.Lock with
  | none => { app := a, events := [], returned := false }
  | some a1 =>
    { app := App.Unlock { a1 with load := a1.load ++ [fn] }, events := [], returned := true }

/-- The method `App.Ready`: append to the ready-callback slice under the lock. -/
def App.Ready (a : App) (fn : Callback) : Outcome :=
  match a.Lock with
  | none => { app := a, events := [], returned := false }
  | some a1 =>
    { app := App.Unlock { a1 with ready := a1.ready ++ [fn] }, events := [], returned := true }

/-- The snippet `InjectCSS` evaluates for element identifier `id`. -/
def cssSnippet (id : Int) (css : String) : String :=
  "let ___" ++ toString id ++ "=document.createElement(\"style\");"
    ++ "___" ++ toString id ++ ".innerHTML=`" ++ css ++ "`;"
    ++ "document.body.appendChild(___" ++ toString id ++ ");"

/-- The snippet `InjectScript` evaluates for element identifier `id`. -/
def scriptSnippet (id : Int) (script : String) : String :=
  "let ___" ++ toString id ++ "=document.createElement(\"script\");"
    ++ "___" ++ toString id ++ ".innerHTML=`" ++ script ++ "`;"
    ++ "document.body.appendChild(___" ++ toString id ++ ");"

/-- The snippet `InjectScriptSrc` evaluates for element identifier `id`. -/
def scriptSrcSnippet (id : Int) (url : String) : String :=
  "let ___" ++ toString id ++ "=document.createElement(\"script\");"
    ++ "___" ++ toString id ++ ".src=`" ++ url ++ "`;"
    ++ "document.body.appendChild(___" ++ toString id ++ ");"

/-- The method `App.InjectCSS`: bump the counter, evaluate the style snippet. -/
def App.InjectCSS (a : App) (css : String) : Outcome :=
  let id := atomicAddInt32 a.id 1
  { app := { a with id := id }, events := [Event.eval (cssSnippet id css)], returned := true }

/-- The method `App.InjectScript`: bump the counter, evaluate the inline-script snippet. -/
def App.InjectScript (a : App) (script : String) : Outcome :=
  let id := atomicAddInt32 a.id 1
  { app := { a with id := id }, events := [Event.eval (scriptSnippet id script)],
    returned := true }

/-- The method `App.InjectScriptSrc`: bump the counter, evaluate the script-by-URL snippet. -/
def App.InjectScriptSrc (a : App) (url : String) : Outcome :=
  let id := atomicAddInt32 a.id 1
  { app := { a with id := id }, events := [Event.eval (scriptSrcSnippet id url)],
    returned := true }

/-- The method `App.Dispose`: take the lock, write the bounds, log a write error.  There
is no `Unlock` on this path. -/
def App.Dispose (h : Host) (a : App) : Outcome :=
  match a.Lock with
  | none => { app := a, events := [], returned := false }
  | some a1 =>
    let w := write h (h.join [a1.dir, "Window.json"]) a1.bounds
    let stopLog := match w.1 with
      | some m => [Event.log ["stop err:", m]]
      | none => []
    { app := a1, events := w.2 ++ stopLog, returned := true }

/-- The poller step `checkBounds`, given what `a.UI.Bounds()` returned. -/
def checkBounds (a : App) (q : Except Err Bounds) : Outcome :=
  match q with
  | Except.ok b =>
    match a.Lock with
    | none => { app := a, events := [Event.queryBounds], returned := false }
    | some a1 =>
      { app := App.Unlock { a1 with bounds := b }, events := [Event.queryBounds],
        returned := true }
  | Except.error _ => { app := a, events := [Event.queryBounds], returned := true }

/-- One call of a callback body, dispatched to the method it names. -/
def App.call (h : Host) (a : App) : Call → Outcome
  | Call.Load fn => a.Load fn
  | Call.Ready fn => a.Ready fn
  | Call.InjectCSS css => a.InjectCSS css
  | Call.InjectScript script => a.InjectScript script
  | Call.InjectScriptSrc url => a.InjectScriptSrc url
  | Call.Dispose => a.Dispose h

/-- The body of one callback, `fn(a)`: its calls in order, up to the first one
that does not return. -/
def runBody (h : Host) (a : App) : List Call → Outcome
  | [] => { app := a, events := [], returned := true }
  | c :: cs =>
    let o := a.call h c
    if o.returned then
      let r := runBody h o.app cs
      { app := r.app, events := o.events ++ r.events, returned := r.returned }
    else { app := o.app, events := o.events, returned := false }

/-- The loop `for _, fn := range fns { fn(a) }` of `checkState`: each callback
is invoked once the one before it has returned. -/
def invokeAll (h : Host) (slot : Slot) (a : App) : List Callback → Outcome
  | [] => { app := a, events := [], returned := true }
  | fn :: fns =>
    let o := runBody h a (h.body fn)
    if o.returned then
      let r := invokeAll h slot o.app fns
      { app := r.app, events := Event.invoke slot fn :: (o.events ++ r.events),
        returned := r.returned }
    else { app := o.app, events := Event.invoke slot fn :: o.events, returned := false }

/-- The poller step `checkState`, given the string the readiness probe evaluated
to.  The deferred `Unlock` runs only if the loop over the callbacks returns. -/
def checkState (h : Host) (a : App) (state : String) : Outcome :=
  let probe := Event.eval "window.document.readyState"
  if state ≠ a.state then
    let a0 := { a with state := state }
    if state = "interactive" then
      match a0.Lock with
      | none => { app := a0, events := [probe], returned := false }
      | some a1 =>
        let r := invokeAll h Slot.load a1 a1.load
        if r.returned then
          { app := App.Unlock r.app, events := probe :: r.events, returned := true }
        else { app := r.app, events := probe :: r.events, returned := false }
    else if state = "complete" then
      match a0.Lock with
      | none => { app := a0, events := [probe], returned := false }
      | some a1 =>
        let r := invokeAll h Slot.ready a1 a1.ready
        if r.returned then
          { app := App.Unlock r.app, events := probe :: r.events, returned := true }
        else { app := r.app, events := probe :: r.events, returned := false }
    else { app := a0, events := [probe], returned := true }
  else { app := a, events := [probe], returned := true }

/-- One call made on an `App` after construction, from the caller's goroutine
(`Load`, `Ready`, the injections, `Dispose`) or from the poller (`checkBounds`
with what the UI returned for its bounds, `checkState` with the observed state). -/
inductive Op where
  | Load (fn : Callback)
  | Ready (fn : Callback)
  | InjectCSS (css : String)
  | InjectScript (script : String)
  | InjectScriptSrc (url : String)
  | Dispose
  | checkBounds (q : Except Err Bounds)
  | checkState (state : String)

/-- Execute one call. -/
def step (h : Host) (a : App) : Op → Outcome
  | Op.Load fn => a.Load fn
  | Op.Ready fn => a.Ready fn
  | Op.InjectCSS css => a.InjectCSS css
  | Op.InjectScript script => a.InjectScript script
  | Op.InjectScriptSrc url => a.InjectScriptSrc url
  | Op.Dispose => a.Dispose h
  | Op.checkBounds q => checkBounds a q
  | Op.checkState state => checkState h a state

/-- Execute calls one after the other: the final `App` and all external calls
made.  A call that parks on the lock leaves its `App` as it is at that point and
the remaining calls (of the other goroutine) go on from there. -/
def run (h : Host) (a : App) : List Op → App × List Event
  | [] => (a, [])
  | op :: ops =>
    let o := step h a op
    let r := run h o.app ops
    (r.1, o.events ++ r.2)

/-- The callback invocations among a list of events, in order: every `fn(a)`
that was started. -/
def invoked (evs : List Event) : List (Slot × Callback) :=
  evs.filterMap fun ev =>
    match ev with
    | Event.invoke slot fn => some (slot, fn)
    | _ => none

/-- The arguments `(url, dir, width, height, customArgs)` of the `lorca.New`
calls among the events. -/
def uiNewCalls (evs : List Event) : List (String × String × Int × Int × List String) :=
  evs.filterMap fun ev =>
    match ev with
    | Event.uiNew url dir w ht args => some (url, dir, w, ht, args)
    | _ => none

/-- The arguments of the `SetBounds` calls among the events. -/
def setBoundsArgs (evs : List Event) : List Bounds :=
  evs.filterMap fun ev =>
    match ev with
    | Event.setBounds b => some b
    | _ => none

/-- The `(path, record)` pairs handed to the JSON encoder among the events. -/
def encoded (evs : List Event) : List (String × Bounds) :=
  evs.filterMap fun ev =>
    match ev with
    | Event.encode path _ b => some (path, b)
    | _ => none

/-- The bounds of the most recent successful query of a sequence, if any. -/
def lastOk : List (Except Err Bounds) → Option Bounds
  | [] => none
  | q :: qs =>
    match lastOk qs with
    | some b => some b
    | none =>
      match q with
      | Except.ok b => some b
      | Except.error _ => none

/-- One of the three injection calls, with its argument. -/
inductive Inject where
  | css (css : String)
  | script (script : String)
  | src (url : String)
deriving DecidableEq, Repr

/-- Dispatch an injection call to its method. -/
def App.inject (a : App) : Inject → Outcome
  | Inject.css s => a.InjectCSS s
  | Inject.script s => a.InjectScript s
  | Inject.src s => a.InjectScriptSrc s

/-- The snippet an injection call evaluates when it is given identifier `id`. -/
def Inject.snippet (id : Int) : Inject → String
  | Inject.css s => cssSnippet id s
  | Inject.script s => scriptSnippet id s
  | Inject.src s => scriptSrcSnippet id s

/-- The outcomes of a sequence of injection calls, one per call. -/
def injectAll (a : App) : List Inject → List Outcome
  | [] => []
  | c :: cs => a.inject c :: injectAll (a.inject c).app cs

/-- The element identifiers of a sequence of injection calls: the value each
call got back from the counter increment (and left in the counter). -/
def injectIds (a : App) (calls : List Inject) : List Int :=
  (injectAll a calls).map fun o => o.app.id

/-- A sample host: home directory `/home/u`, no config directory and no
`Window.json` yet, every other call succeeds, and callbacks that make no call
on the `App`. -/
def demoHost : Host :=
  { currentUser := Except.ok "/home/u"
    join := fun parts => "/".intercalate parts
    stat := fun _ => some "no such file or directory"
    mkdirAll := fun _ => none
    osOpen := fun _ => Except.error "no such file or directory"
    decode := fun _ i => (i, some "unexpected end of JSON input")
    close := fun _ => none
    osCreate := fun _ => none
    encode := fun _ _ => none
    uiNew := fun _ _ _ _ _ => none
    setBounds := fun _ => none
    body := fun _ => [] }

/-- The `App` that `NewApp "MyApp" "http://localhost" 800 600` builds on `demoHost`. -/
def demoApp : App :=
  { id := 0, dir := "/home/u/AppData/Local/MyApp", state := "complete", lock := false,
    bounds := { Left := 0, Top := 0, Width := 800, Height := 600, WindowState := "normal" },
    load := [], ready := [] }

/-- A saved window record, as a previous run would have left it. -/
def savedBounds : Bounds :=
  { Left := 40, Top := 25, Width := 1024, Height := 768, WindowState := "maximized" }

/-- A host on which `Window.json` exists and decodes to `savedBounds`, and on
which `SetBounds` fails. -/
def savedHost : Host :=
  { demoHost with
    stat := fun _ => none
    osOpen := fun _ => Except.ok "saved"
    decode := fun _ _ => (savedBounds, none)
    setBounds := fun _ => some "window not found" }

/-- A host on which `Window.json` is truncated: the decoder fills `Left` and
`Width` and then fails. -/
def truncatedHost : Host :=
  { demoHost with
    stat := fun _ => none
    osOpen := fun _ => Except.ok "truncated"
    decode := fun _ i => ({ i with Left := 40, Width := 1024 }, some "unexpected EOF") }

/-- A host on which the hosted UI cannot be started. -/
def noChromeHost : Host :=
  { demoHost with uiNew := fun _ _ _ _ _ => some "chrome not found" }

/-- A host on which `Window.json` cannot be created. -/
def readOnlyHost : Host :=
  { demoHost with osCreate := fun _ => some "permission denied" }

/-- Whether a call leaves the observed ready-state at `s`: every call does,
except a state check that observes something else. -/
def Op.staysAt (s : String) : Op → Bool
  | Op.checkState t => decide (t = s)
  | _ => true

/-- Whether a call takes the lock of the `App`. -/
def Call.locks : Call → Bool
  | Call.Load _ => true
  | Call.Ready _ => true
  | Call.Dispose => true
  | _ => false

/-- The sample `App` after `Load 7`, `Ready 9` and one poller iteration (a
failed bounds query, then a check observing `"loading"`): state `"loading"`,
one callback in each list, lock free. -/
def liveLoading : App :=
  (run demoHost demoApp
    [Op.Load 7, Op.Ready 9, Op.checkBounds (Except.error "no window"),
      Op.checkState "loading"]).1

/-- The sample `App` `liveLoading` after `Dispose` and the failed bounds query
of the next poller iteration: state `"loading"`, lock held. -/
def disposedLoading : App :=
  (run demoHost liveLoading [Op.Dispose, Op.checkBounds (Except.error "no window")]).1

/-- The sample `App` `liveLoading` after a second poller iteration (a failed
bounds query, then a check observing `"interactive"`): state `"interactive"`,
lock free. -/
def liveInteractive : App :=
  (run demoHost liveLoading
    [Op.checkBounds (Except.error "no window"), Op.checkState "interactive"]).1

/-- The sample `App` `liveInteractive` after `Dispose` and the failed bounds
query of the next poller iteration: state `"interactive"`, lock held. -/
def disposedInteractive : App :=
  (run demoHost liveInteractive [Op.Dispose, Op.checkBounds (Except.error "no window")]).1

/-- The fresh sample `App` after `Dispose`: bounds `{0, 0, 800, 600, "normal"}`,
lock held. -/
def disposedFresh : App :=
  (run demoHost demoApp [Op.Dispose]).1

/-- A host whose callback `7` injects a style sheet and then registers callback
`8` with `Load`. -/
def reentrantHost : Host :=
  { demoHost with
    body := fun fn => if fn = 7 then [Call.InjectCSS "a", Call.Load 8] else [] }

/-! ## Projections of the event lists of the helpers -/

theorem uiNewCalls_append (xs ys : List Event) :
    uiNewCalls (xs ++ ys) = uiNewCalls xs ++ uiNewCalls ys := by
  simp [uiNewCalls, List.filterMap_append]

theorem setBoundsArgs_append (xs ys : List Event) :
    setBoundsArgs (xs ++ ys) = setBoundsArgs xs ++ setBoundsArgs ys := by
  simp [setBoundsArgs, List.filterMap_append]

theorem invoked_append (xs ys : List Event) :
    invoked (xs ++ ys) = invoked xs ++ invoked ys := by
  simp [invoked, List.filterMap_append]

theorem encoded_append (xs ys : List Event) :
    encoded (xs ++ ys) = encoded xs ++ encoded ys := by
  simp [encoded, List.filterMap_append]

theorem uiNewCalls_logClose (h : Host) (path : String) : uiNewCalls (logClose h path) = [] := by
  unfold logClose; split <;> rfl

theorem setBoundsArgs_logClose (h : Host) (path : String) :
    setBoundsArgs (logClose h path) = [] := by
  unfold logClose; split <;> rfl

theorem encoded_logClose (h : Host) (path : String) : encoded (logClose h path) = [] := by
  unfold logClose; split <;> rfl

theorem uiNewCalls_configDir (h : Host) (name : String) :
    uiNewCalls (configDir h name).2 = [] := by
  simp only [configDir]
  split
  · split <;> rfl
  · rfl

theorem setBoundsArgs_configDir (h : Host) (name : String) :
    setBoundsArgs (configDir h name).2 = [] := by
  simp only [configDir]
  split
  · split <;> rfl
  · rfl

theorem uiNewCalls_read (h : Host) (path : String) (i : Bounds) :
    uiNewCalls (read h path i).2.2 = [] := by
  unfold read; split
  · rfl
  · exact uiNewCalls_logClose h path

theorem setBoundsArgs_read (h : Host) (path : String) (i : Bounds) :
    setBoundsArgs (read h path i).2.2 = [] := by
  unfold read; split
  · rfl
  · exact setBoundsArgs_logClose h path

/-- The size and bounds `NewApp` settles on after the read, as the source
computes them (lines 35-46). -/
theorem newApp_shape (h : Host) (name url : String) (width height : Int) :
    ∃ (w ht : Int) (b : Bounds) (pre : List Event),
      ((read h (h.join [(configDir h name).1, "Window.json"]) Bounds.zero).2.1 = none →
        b = (read h (h.join [(configDir h name).1, "Window.json"]) Bounds.zero).1 ∧
        w = b.Width ∧ ht = b.Height) ∧
      ((read h (h.join [(configDir h name).1, "Window.json"]) Bounds.zero).2.1 ≠ none →
        b = { Left := 0, Top := 0, Width := width, Height := height, WindowState := "normal" } ∧
        w = width ∧ ht = height) ∧
      uiNewCalls pre = [] ∧ setBoundsArgs pre = [] ∧
      ((∃ e, h.uiNew url (configDir h name).1 w ht ["--enable-extensions"] = some e ∧
          NewApp h name url width height =
            { app := none, err := some e,
              events := pre ++ [Event.uiNew url (configDir h name).1 w ht ["--enable-extensions"]] }) ∨
       (h.uiNew url (configDir h name).1 w ht ["--enable-extensions"] = none ∧
          ∃ logs : List Event, uiNewCalls logs = [] ∧ setBoundsArgs logs = [] ∧
          NewApp h name url width height =
            { app := some { id := 0, dir := (configDir h name).1, state := "complete",
                            lock := false, bounds := b, load := [], ready := [] },
              err := none,
              events := pre ++ [Event.uiNew url (configDir h name).1 w ht ["--enable-extensions"]]
                ++ [Event.setBounds b] ++ logs })) := by
  generalize hrd : read h (h.join [(configDir h name).1, "Window.json"]) Bounds.zero = rd
  have hpre : uiNewCalls ((configDir h name).2 ++ rd.2.2) = [] ∧
      setBoundsArgs ((configDir h name).2 ++ rd.2.2) = [] := by
    rw [uiNewCalls_append, setBoundsArgs_append, uiNewCalls_configDir, setBoundsArgs_configDir,
      ← hrd, uiNewCalls_read, setBoundsArgs_read]
    exact ⟨rfl, rfl⟩
  cases hre : rd.2.1 with
  | none =>
    refine ⟨rd.1.Width, rd.1.Height, rd.1, (configDir h name).2 ++ rd.2.2, ?_, ?_, hpre.1, hpre.2, ?_⟩
    · intro _; exact ⟨rfl, rfl, rfl⟩
    · intro hne; exact absurd rfl hne
    · cases hui : h.uiNew url (configDir h name).1 rd.1.Width rd.1.Height ["--enable-extensions"] with
      | some e =>
        left
        refine ⟨e, rfl, ?_⟩
        simp only [NewApp, hrd, hre, hui]
      | none =>
        right
        refine ⟨rfl, ?_⟩
        cases hsb : h.setBounds rd.1 with
        | none =>
          refine ⟨[Event.goLoop], rfl, rfl, ?_⟩
          simp [NewApp, hrd, hre, hui, hsb]
        | some m =>
          refine ⟨[Event.log ["position err:", m], Event.log ["start err:", m], Event.goLoop],
            rfl, rfl, ?_⟩
          simp [NewApp, hrd, hre, hui, hsb]
  | some e0 =>
    refine ⟨width, height,
      { Left := 0, Top := 0, Width := width, Height := height, WindowState := "normal" },
      (configDir h name).2 ++ rd.2.2, ?_, ?_, hpre.1, hpre.2, ?_⟩
    · intro hn; exact absurd hn (by simp)
    · intro _; exact ⟨rfl, rfl, rfl⟩
    · cases hui : h.uiNew url (configDir h name).1 width height ["--enable-extensions"] with
      | some e =>
        left
        refine ⟨e, rfl, ?_⟩
        simp only [NewApp, hrd, hre, hui]
      | none =>
        right
        refine ⟨rfl, ?_⟩
        cases hsb : h.setBounds
            { Left := 0, Top := 0, Width := width, Height := height, WindowState := "normal" } with
        | none =>
          refine ⟨[Event.goLoop], rfl, rfl, ?_⟩
          simp [NewApp, hrd, hre, hui, hsb]
        | some m =>
          refine ⟨[Event.log ["position err:", m], Event.log ["start err:", m], Event.goLoop],
            rfl, rfl, ?_⟩
          simp [NewApp, hrd, hre, hui, hsb]

/-! ## Construction -/

/-- C1: when reading `Window.json` from the config directory succeeds with a
record `R`, `NewApp` calls `lorca.New` with `R.Width` and `R.Height` (whatever
width and height the caller passed), and the `App` it returns has been applied
`SetBounds R` and stores `R` itself as its bounds, so `Left`, `Top` and
`WindowState` are the record's; such an `App` is returned whenever `lorca.New`
succeeds. -/
theorem newApp_saved_record_wins (h : Host) (name url : String) (width height : Int)
    (R : Bounds)
    (hrec : (read h (h.join [(configDir h name).1, "Window.json"]) Bounds.zero).1 = R)
    (hok : (read h (h.join [(configDir h name).1, "Window.json"]) Bounds.zero).2.1 = none) :
    uiNewCalls (NewApp h name url width height).events =
        [(url, (configDir h name).1, R.Width, R.Height, ["--enable-extensions"])] ∧
    (∀ a, (NewApp h name url width height).app = some a →
        setBoundsArgs (NewApp h name url width height).events = [R] ∧ a.bounds = R ∧
        a.bounds.Left = R.Left ∧ a.bounds.Top = R.Top ∧
        a.bounds.WindowState = R.WindowState) ∧
    (h.uiNew url (configDir h name).1 R.Width R.Height ["--enable-extensions"] = none →
        ∃ a, (NewApp h name url width height).app = some a) := by
  obtain ⟨w, ht, b, pre, hnone, -, hpre1, hpre2, hres⟩ := newApp_shape h name url width height
  obtain ⟨hb, hw, hht⟩ := hnone hok
  rw [hrec] at hb
  subst hb; subst hw; subst hht
  rcases hres with ⟨e, hui, hnew⟩ | ⟨hui, logs, hl1, hl2, hnew⟩
  · rw [hnew]
    refine ⟨?_, ?_, ?_⟩
    · simp only [uiNewCalls_append, hpre1]; rfl
    · intro a ha; exact absurd ha (by simp)
    · intro hn; rw [hui] at hn; exact absurd hn (by simp)
  · rw [hnew]
    refine ⟨?_, ?_, ?_⟩
    · simp only [uiNewCalls_append, hpre1, hl1]; rfl
    · intro a ha
      have hab : a.bounds = b := by
        simp only [Option.some.injEq] at ha
        rw [← ha]
      refine ⟨?_, hab, by rw [hab], by rw [hab], by rw [hab]⟩
      simp only [setBoundsArgs_append, hpre2, hl2]; rfl
    · intro _; exact ⟨_, rfl⟩

/-- C2: when reading `Window.json` fails (the file cannot be opened, or the
decoder reports an error, whatever it had already filled in), `NewApp` calls
`lorca.New` with the caller's width and height, and the `App` it returns has
bounds exactly `{0, 0, width, height, "normal"}`; such an `App` is returned
whenever `lorca.New` succeeds. -/
theorem newApp_defaults_when_read_fails (h : Host) (name url : String) (width height : Int)
    (hfail : (read h (h.join [(configDir h name).1, "Window.json"]) Bounds.zero).2.1 ≠ none) :
    uiNewCalls (NewApp h name url width height).events =
        [(url, (configDir h name).1, width, height, ["--enable-extensions"])] ∧
    (∀ a, (NewApp h name url width height).app = some a →
        a.bounds =
          { Left := 0, Top := 0, Width := width, Height := height, WindowState := "normal" }) ∧
    (h.uiNew url (configDir h name).1 width height ["--enable-extensions"] = none →
        ∃ a, (NewApp h name url width height).app = some a) := by
  obtain ⟨w, ht, b, pre, -, hsome, hpre1, hpre2, hres⟩ := newApp_shape h name url width height
  obtain ⟨hb, hw, hht⟩ := hsome hfail
  subst hb; subst hw; subst hht
  rcases hres with ⟨e, hui, hnew⟩ | ⟨hui, logs, hl1, hl2, hnew⟩
  · rw [hnew]
    refine ⟨?_, ?_, ?_⟩
    · simp only [uiNewCalls_append, hpre1]; rfl
    · intro a ha; exact absurd ha (by simp)
    · intro hn; rw [hui] at hn; exact absurd hn (by simp)
  · rw [hnew]
    refine ⟨?_, ?_, ?_⟩
    · simp only [uiNewCalls_append, hpre1, hl1]; rfl
    · intro a ha
      simp only [Option.some.injEq] at ha
      rw [← ha]
    · intro _; exact ⟨_, rfl⟩

/-- C3: `NewApp` makes exactly one `lorca.New` call and the error it returns is
the result of that call: it returns an error (and then no `App`) exactly when
that call fails, with that very error, and otherwise a non-nil `App` with a nil
error.  The results of reading the config record and of `SetBounds` are
arbitrary here (they are fields of the host `h`), so neither makes `NewApp` fail. -/
theorem newApp_fails_iff_ui_creation_fails (h : Host) (name url : String)
    (width height : Int) :
    ∃ (w ht : Int),
      uiNewCalls (NewApp h name url width height).events =
          [(url, (configDir h name).1, w, ht, ["--enable-extensions"])] ∧
      (NewApp h name url width height).err =
          h.uiNew url (configDir h name).1 w ht ["--enable-extensions"] ∧
      ((NewApp h name url width height).err ≠ none ↔
          (NewApp h name url width height).app = none) ∧
      ((NewApp h name url width height).err = none ↔
          ∃ a, (NewApp h name url width height).app = some a) := by
  obtain ⟨w, ht, b, pre, -, -, hpre1, hpre2, hres⟩ := newApp_shape h name url width height
  refine ⟨w, ht, ?_⟩
  rcases hres with ⟨e, hui, hnew⟩ | ⟨hui, logs, hl1, hl2, hnew⟩
  · rw [hnew, hui]
    refine ⟨?_, rfl, by simp, by simp⟩
    simp only [uiNewCalls_append, hpre1]; rfl
  · rw [hnew, hui]
    refine ⟨?_, rfl, by simp, by simp⟩
    simp only [uiNewCalls_append, hpre1, hl1]; rfl

/-! ## Element identifiers -/

theorem wrapInt32_succ (x : Int) : wrapInt32 (wrapInt32 x + 1) = wrapInt32 (x + 1) := by
  unfold wrapInt32; omega

theorem wrapInt32_of_mem (x : Int) (hlo : -2147483648 ≤ x) (hhi : x ≤ 2147483647) :
    wrapInt32 x = x := by
  unfold wrapInt32; omega

theorem inject_id (a : App) (c : Inject) : (a.inject c).app.id = wrapInt32 (a.id + 1) := by
  cases c <;> rfl

theorem inject_events (a : App) (c : Inject) :
    (a.inject c).events = [Event.eval (c.snippet (a.inject c).app.id)] := by
  cases c <;> rfl

theorem injectIds_cons (a : App) (c : Inject) (cs : List Inject) :
    injectIds a (c :: cs) = (a.inject c).app.id :: injectIds (a.inject c).app cs := rfl

/-- The identifiers of `N` calls from counter value `c` are the wrapped values
of `c + 1, ..., c + N`. -/
theorem injectIds_eq (a : App) (calls : List Inject) :
    injectIds a calls =
      (List.range calls.length).map fun (k : Nat) => wrapInt32 (a.id + 1 + (k : Int)) := by
  induction calls generalizing a with
  | nil => rfl
  | cons c cs ih =>
    rw [injectIds_cons, ih, List.length_cons, List.range_succ_eq_map, List.map_cons,
      List.map_map, inject_id]
    congr 1
    · simp
    · apply List.map_congr_left
      intro k _
      simp only [Function.comp, Nat.succ_eq_add_one, Nat.cast_add, Nat.cast_one]
      have := wrapInt32_succ (a.id + k)
      unfold wrapInt32 at *
      omega

theorem injectAll_events (a : App) (calls : List Inject) :
    (injectAll a calls).map (fun o => o.events) =
      List.zipWith (fun c id => [Event.eval (c.snippet id)]) calls (injectIds a calls) := by
  induction calls generalizing a with
  | nil => rfl
  | cons c cs ih =>
    rw [injectIds_cons, List.zipWith_cons_cons, ← ih, ← inject_events]
    rfl

theorem pairwise_map_range {R : Int → Int → Prop} {f : Nat → Int} {N : Nat}
    (hp : ((List.range N).map f).Pairwise R) {i j : Nat} (hij : i < j) (hj : j < N) :
    R (f i) (f j) := by
  rw [List.pairwise_map] at hp
  have hi : i < (List.range N).length := by rw [List.length_range]; omega
  have hj2 : j < (List.range N).length := by rw [List.length_range]; omega
  have := List.pairwise_iff_getElem.1 hp i j hi hj2 hij
  simpa using this

/-- C4 (amended): for every `App` and every sequence of calls to `InjectCSS`,
`InjectScript` and `InjectScriptSrc`, each call evaluates the snippet built
from the value its counter increment returned; these identifiers are pairwise
distinct as long as there are at most 2^32 calls, and they are `c + 1, ..., c + N`,
strictly increasing in call order, as long as the `int32` counter does not pass
2147483647 (from a fresh counter `c = 0`: for up to 2147483647 calls). -/
theorem inject_ids_distinct_increasing (a : App) (calls : List Inject) :
    (injectAll a calls).map (fun o => o.events) =
        List.zipWith (fun c id => [Event.eval (c.snippet id)]) calls (injectIds a calls) ∧
    (injectIds a calls).length = calls.length ∧
    (calls.length ≤ 4294967296 → (injectIds a calls).Nodup) ∧
    (-2147483648 ≤ a.id → a.id + calls.length ≤ 2147483647 →
        injectIds a calls = (List.range calls.length).map (fun (k : Nat) => a.id + 1 + (k : Int)) ∧
        (injectIds a calls).Pairwise (· < ·)) := by
  refine ⟨injectAll_events a calls, ?_, ?_, ?_⟩
  · rw [injectIds_eq, List.length_map, List.length_range]
  · intro hN
    rw [injectIds_eq]
    refine List.Nodup.map_on ?_ (List.nodup_range _)
    intro x hx y hy hxy
    rw [List.mem_range] at hx hy
    unfold wrapInt32 at hxy
    omega
  · intro hlo hhi
    have hid : injectIds a calls =
        (List.range calls.length).map (fun (k : Nat) => a.id + 1 + (k : Int)) := by
      rw [injectIds_eq]
      apply List.map_congr_left
      intro k hk
      rw [List.mem_range] at hk
      exact wrapInt32_of_mem _ (by omega) (by omega)
    refine ⟨hid, ?_⟩
    rw [hid, List.pairwise_map]
    refine List.Pairwise.imp ?_ (List.pairwise_lt_range _)
    intro x y hxy
    omega

/-- C4 (as stated) fails: on the fresh `App` (counter 0), among 2147483648
calls to `InjectCSS` the last gets identifier -2147483648, below the
2147483647 of the call before it; and among 4294967297 calls the last gets
identifier 1 again, the identifier of the first. -/
theorem inject_ids_wrap_counterexample :
    (NewApp demoHost "MyApp" "http://localhost" 800 600).app = some demoApp ∧
    demoApp.id = 0 ∧
    ¬ (injectIds demoApp (List.replicate 2147483648 (Inject.css ""))).Pairwise (· < ·) ∧
    ¬ (injectIds demoApp (List.replicate 4294967297 (Inject.css ""))).Nodup := by
  refine ⟨by decide, rfl, ?_, ?_⟩
  · intro hp
    rw [injectIds_eq, List.length_replicate] at hp
    have := pairwise_map_range hp (i := 2147483646) (j := 2147483647) (by omega) (by omega)
    revert this
    decide
  · intro hp
    rw [injectIds_eq, List.length_replicate] at hp
    have := pairwise_map_range hp (i := 0) (j := 4294967296) (by omega) (by omega)
    revert this
    decide

/-! ## Single calls -/

theorem invoked_map_invoke (slot : Slot) (fs : List Callback) :
    invoked (fs.map (Event.invoke slot)) = fs.map fun f => (slot, f) := by
  induction fs with
  | nil => rfl
  | cons f fs ih =>
    have : invoked (Event.invoke slot f :: fs.map (Event.invoke slot)) =
        (slot, f) :: invoked (fs.map (Event.invoke slot)) := rfl
    rw [List.map_cons, this, ih, List.map_cons]

theorem invoked_logClose (h : Host) (path : String) : invoked (logClose h path) = [] := by
  unfold logClose; split <;> rfl

theorem invoked_write (h : Host) (path : String) (b : Bounds) :
    invoked (write h path b).2 = [] := by
  unfold write; split
  · rfl
  · exact invoked_logClose h path

theorem load_free (a : App) (fn : Callback) (hfree : a.lock = false) :
    a.Load fn = { app := { a with load := a.load ++ [fn] }, events := [], returned := true } := by
  cases a; simp only at hfree; subst hfree; rfl

theorem load_held (a : App) (fn : Callback) (hheld : a.lock = true) :
    a.Load fn = { app := a, events := [], returned := false } := by
  cases a; simp only at hheld; subst hheld; rfl

theorem ready_free (a : App) (fn : Callback) (hfree : a.lock = false) :
    a.Ready fn = { app := { a with ready := a.ready ++ [fn] }, events := [], returned := true } := by
  cases a; simp only at hfree; subst hfree; rfl

theorem ready_held (a : App) (fn : Callback) (hheld : a.lock = true) :
    a.Ready fn = { app := a, events := [], returned := false } := by
  cases a; simp only at hheld; subst hheld; rfl

theorem checkBounds_ok_free (a : App) (b : Bounds) (hfree : a.lock = false) :
    checkBounds a (Except.ok b) =
      { app := { a with bounds := b }, events := [Event.queryBounds], returned := true } := by
  cases a; simp only at hfree; subst hfree; rfl

theorem checkBounds_ok_held (a : App) (b : Bounds) (hheld : a.lock = true) :
    checkBounds a (Except.ok b) =
      { app := a, events := [Event.queryBounds], returned := false } := by
  cases a; simp only at hheld; subst hheld; rfl

theorem checkBounds_error (a : App) (e : Err) :
    checkBounds a (Except.error e) =
      { app := a, events := [Event.queryBounds], returned := true } := rfl

theorem dispose_free (h : Host) (a : App) (hfree : a.lock = false) :
    a.Dispose h =
      { app := { a with lock := true },
        events := (write h (h.join [a.dir, "Window.json"]) a.bounds).2 ++
          (match (write h (h.join [a.dir, "Window.json"]) a.bounds).1 with
            | some m => [Event.log ["stop err:", m]]
            | none => []),
        returned := true } := by
  cases a; simp only at hfree; subst hfree; rfl

theorem dispose_held (h : Host) (a : App) (hheld : a.lock = true) :
    a.Dispose h = { app := a, events := [], returned := false } := by
  cases a; simp only at hheld; subst hheld; rfl

theorem invoked_dispose (h : Host) (a : App) : invoked (a.Dispose h).events = [] := by
  cases hl : a.lock with
  | true => rw [dispose_held h a hl]; rfl
  | false =>
    rw [dispose_free h a hl]
    simp only [invoked_append, invoked_write, List.nil_append]
    split <;> rfl

theorem invoked_call (h : Host) (a : App) (c : Call) : invoked (a.call h c).events = [] := by
  cases c with
  | Load fn =>
    show invoked (a.Load fn).events = []
    cases hl : a.lock with
    | true => rw [load_held a fn hl]; rfl
    | false => rw [load_free a fn hl]; rfl
  | Ready fn =>
    show invoked (a.Ready fn).events = []
    cases hl : a.lock with
    | true => rw [ready_held a fn hl]; rfl
    | false => rw [ready_free a fn hl]; rfl
  | InjectCSS css => rfl
  | InjectScript script => rfl
  | InjectScriptSrc url => rfl
  | Dispose => exact invoked_dispose h a

theorem runBody_cons (h : Host) (a : App) (c : Call) (cs : List Call) :
    runBody h a (c :: cs) =
      if (a.call h c).returned then
        { app := (runBody h (a.call h c).app cs).app,
          events := (a.call h c).events ++ (runBody h (a.call h c).app cs).events,
          returned := (runBody h (a.call h c).app cs).returned }
      else { app := (a.call h c).app, events := (a.call h c).events, returned := false } :=
  rfl

theorem invokeAll_cons (h : Host) (slot : Slot) (a : App) (fn : Callback)
    (fns : List Callback) :
    invokeAll h slot a (fn :: fns) =
      if (runBody h a (h.body fn)).returned then
        { app := (invokeAll h slot (runBody h a (h.body fn)).app fns).app,
          events := Event.invoke slot fn :: ((runBody h a (h.body fn)).events ++
            (invokeAll h slot (runBody h a (h.body fn)).app fns).events),
          returned := (invokeAll h slot (runBody h a (h.body fn)).app fns).returned }
      else
        { app := (runBody h a (h.body fn)).app,
          events := Event.invoke slot fn :: (runBody h a (h.body fn)).events,
          returned := false } :=
  rfl

/-- The body of a callback invokes no callback itself. -/
theorem invoked_runBody (h : Host) (a : App) (cs : List Call) :
    invoked (runBody h a cs).events = [] := by
  induction cs generalizing a with
  | nil => rfl
  | cons c cs ih =>
    rw [runBody_cons]
    split
    · show invoked ((a.call h c).events ++ (runBody h (a.call h c).app cs).events) = []
      rw [invoked_append, invoked_call, ih]; rfl
    · exact invoked_call h a c

theorem invoked_invoke_cons (slot : Slot) (fn : Callback) (evs : List Event) :
    invoked (Event.invoke slot fn :: evs) = (slot, fn) :: invoked evs := rfl

/-- The loop over one callback list invokes callbacks of that list only: a
prefix of it, in order. -/
theorem invoked_invokeAll_prefix (h : Host) (slot : Slot) (a : App) (fns : List Callback) :
    ∃ k, invoked (invokeAll h slot a fns).events = (fns.take k).map fun f => (slot, f) := by
  induction fns generalizing a with
  | nil => exact ⟨0, rfl⟩
  | cons fn fns ih =>
    rw [invokeAll_cons]
    split
    · obtain ⟨k, hk⟩ := ih (runBody h a (h.body fn)).app
      refine ⟨k + 1, ?_⟩
      show invoked (Event.invoke slot fn :: ((runBody h a (h.body fn)).events ++
        (invokeAll h slot (runBody h a (h.body fn)).app fns).events)) = _
      rw [invoked_invoke_cons, invoked_append, invoked_runBody, hk]
      rfl
    · refine ⟨1, ?_⟩
      show invoked (Event.invoke slot fn :: (runBody h a (h.body fn)).events) = _
      rw [invoked_invoke_cons, invoked_runBody]
      simp

theorem invoked_invokeAll_slot (h : Host) (slot : Slot) (a : App) (fns : List Callback)
    (x : Slot × Callback) (hx : x ∈ invoked (invokeAll h slot a fns).events) : x.1 = slot := by
  obtain ⟨k, hk⟩ := invoked_invokeAll_prefix h slot a fns
  rw [hk] at hx
  obtain ⟨f, -, hf⟩ := List.mem_map.1 hx
  rw [← hf]

/-- One call of a callback body on a held lock: a call that takes the lock does
not return, any other returns; lock, state, bounds and callback lists stay. -/
theorem call_held (h : Host) (a : App) (c : Call) (hheld : a.lock = true) :
    (a.call h c).returned = !c.locks ∧ (a.call h c).app.lock = true ∧
    (a.call h c).app.state = a.state ∧ (a.call h c).app.bounds = a.bounds ∧
    (a.call h c).app.load = a.load ∧ (a.call h c).app.ready = a.ready := by
  cases c with
  | Load fn =>
    show (a.Load fn).returned = _ ∧ (a.Load fn).app.lock = _ ∧ (a.Load fn).app.state = _ ∧
      (a.Load fn).app.bounds = _ ∧ (a.Load fn).app.load = _ ∧ (a.Load fn).app.ready = _
    rw [load_held a fn hheld]; exact ⟨rfl, hheld, rfl, rfl, rfl, rfl⟩
  | Ready fn =>
    show (a.Ready fn).returned = _ ∧ (a.Ready fn).app.lock = _ ∧ (a.Ready fn).app.state = _ ∧
      (a.Ready fn).app.bounds = _ ∧ (a.Ready fn).app.load = _ ∧ (a.Ready fn).app.ready = _
    rw [ready_held a fn hheld]; exact ⟨rfl, hheld, rfl, rfl, rfl, rfl⟩
  | InjectCSS css => exact ⟨rfl, hheld, rfl, rfl, rfl, rfl⟩
  | InjectScript script => exact ⟨rfl, hheld, rfl, rfl, rfl, rfl⟩
  | InjectScriptSrc url => exact ⟨rfl, hheld, rfl, rfl, rfl, rfl⟩
  | Dispose =>
    show (a.Dispose h).returned = _ ∧ (a.Dispose h).app.lock = _ ∧
      (a.Dispose h).app.state = _ ∧ (a.Dispose h).app.bounds = _ ∧
      (a.Dispose h).app.load = _ ∧ (a.Dispose h).app.ready = _
    rw [dispose_held h a hheld]; exact ⟨rfl, hheld, rfl, rfl, rfl, rfl⟩

/-- The body of a callback, run with the lock held: it returns exactly when none
of its calls takes the lock; lock, state, bounds and callback lists stay. -/
theorem runBody_held (h : Host) (a : App) (cs : List Call) (hheld : a.lock = true) :
    ((runBody h a cs).returned = true ↔ ∀ c ∈ cs, c.locks = false) ∧
    (runBody h a cs).app.lock = true ∧ (runBody h a cs).app.state = a.state ∧
    (runBody h a cs).app.bounds = a.bounds ∧ (runBody h a cs).app.load = a.load ∧
    (runBody h a cs).app.ready = a.ready := by
  induction cs generalizing a with
  | nil => exact ⟨by simp [runBody], hheld, rfl, rfl, rfl, rfl⟩
  | cons c cs ih =>
    obtain ⟨c1, c2, c3, c4, c5, c6⟩ := call_held h a c hheld
    obtain ⟨r1, r2, r3, r4, r5, r6⟩ := ih (a.call h c).app c2
    rw [runBody_cons]
    cases hl : c.locks with
    | true =>
      have hret : (a.call h c).returned = false := by rw [c1, hl]; rfl
      rw [if_neg (by rw [hret]; simp)]
      refine ⟨?_, c2, c3, c4, c5, c6⟩
      constructor
      · intro hh; exact absurd hh (by simp)
      · intro hall
        have := hall c (List.mem_cons_self _ _)
        rw [hl] at this; exact absurd this (by simp)
    | false =>
      have hret : (a.call h c).returned = true := by rw [c1, hl]; rfl
      rw [if_pos hret]
      refine ⟨?_, r2, r3.trans c3, r4.trans c4, r5.trans c5, r6.trans c6⟩
      show (runBody h (a.call h c).app cs).returned = true ↔ _
      rw [r1]
      constructor
      · intro hall x hx
        rcases List.mem_cons.1 hx with rfl | hmem
        · exact hl
        · exact hall x hmem
      · intro hall x hx
        exact hall x (List.mem_cons_of_mem _ hx)

/-- The loop over a callback list, run with the lock held, when no body takes
the lock: it returns, every callback of the list is invoked once and in order,
and lock, state, bounds and callback lists stay. -/
theorem invokeAll_held (h : Host) (slot : Slot) (a : App) (fns : List Callback)
    (hheld : a.lock = true) (hbody : ∀ fn ∈ fns, ∀ c ∈ h.body fn, c.locks = false) :
    (invokeAll h slot a fns).returned = true ∧
    invoked (invokeAll h slot a fns).events = fns.map (fun f => (slot, f)) ∧
    (invokeAll h slot a fns).app.lock = true ∧ (invokeAll h slot a fns).app.state = a.state ∧
    (invokeAll h slot a fns).app.bounds = a.bounds ∧
    (invokeAll h slot a fns).app.load = a.load ∧
    (invokeAll h slot a fns).app.ready = a.ready := by
  induction fns generalizing a with
  | nil => exact ⟨rfl, rfl, hheld, rfl, rfl, rfl, rfl⟩
  | cons fn fns ih =>
    obtain ⟨b1, b2, b3, b4, b5, b6⟩ := runBody_held h a (h.body fn) hheld
    have hret : (runBody h a (h.body fn)).returned = true :=
      b1.2 (hbody fn (List.mem_cons_self _ _))
    obtain ⟨i1, i2, i3, i4, i5, i6, i7⟩ := ih (runBody h a (h.body fn)).app b2
      (fun g hg => hbody g (List.mem_cons_of_mem _ hg))
    rw [invokeAll_cons, if_pos hret]
    refine ⟨i1, ?_, i3, i4.trans b3, i5.trans b4, i6.trans b5, i7.trans b6⟩
    show invoked (Event.invoke slot fn :: ((runBody h a (h.body fn)).events ++
      (invokeAll h slot (runBody h a (h.body fn)).app fns).events)) = _
    rw [invoked_invoke_cons, invoked_append, invoked_runBody, i2]
    rfl

/-- A state check that observes the stored state does nothing but probe. -/
theorem checkState_same (h : Host) (a : App) :
    checkState h a a.state =
      { app := a, events := [Event.eval "window.document.readyState"], returned := true } := by
  simp [checkState]

/-- A state check on a held lock: the observed state is stored, nothing is
invoked, and the check returns only if it had no callbacks to run. -/
theorem checkState_held (h : Host) (a : App) (s : String) (hheld : a.lock = true) :
    (checkState h a s).app = { a with state := s } ∧
    (checkState h a s).events = [Event.eval "window.document.readyState"] ∧
    ((checkState h a s).returned = false ↔
      (s ≠ a.state ∧ (s = "interactive" ∨ s = "complete"))) := by
  obtain ⟨id, dir, state, lock, bounds, load, ready⟩ := a
  simp only at hheld; subst hheld
  by_cases hs : s = state
  · subst hs
    rw [checkState_same]
    simp
  · by_cases hi : s = "interactive"
    · subst hi
      simp [checkState, hs, App.Lock]
    · by_cases hc : s = "complete"
      · subst hc
        simp [checkState, hs, App.Lock]
      · simp [checkState, hs, hi, hc]

theorem invoked_probe_cons (evs : List Event) :
    invoked (Event.eval "window.document.readyState" :: evs) = invoked evs := rfl

/-- A state check that observes a change to `"interactive"` on a free lock:
the state is stored, the lock taken, the `load` list run, and the lock released
if that loop returns. -/
theorem checkState_interactive_free (h : Host) (a : App) (hfree : a.lock = false)
    (hs : "interactive" ≠ a.state) :
    checkState h a "interactive" =
      if (invokeAll h Slot.load { a with state := "interactive", lock := true }
          a.load).returned = true then
        { app := App.Unlock (invokeAll h Slot.load
            { a with state := "interactive", lock := true } a.load).app,
          events := Event.eval "window.document.readyState" ::
            (invokeAll h Slot.load { a with state := "interactive", lock := true }
              a.load).events,
          returned := true }
      else
        { app := (invokeAll h Slot.load { a with state := "interactive", lock := true }
            a.load).app,
          events := Event.eval "window.document.readyState" ::
            (invokeAll h Slot.load { a with state := "interactive", lock := true }
              a.load).events,
          returned := false } := by
  obtain ⟨id, dir, state, lock, bounds, load, ready⟩ := a
  simp only at hfree hs; subst hfree
  simp only [checkState, App.Lock, ne_eq, hs, not_false_eq_true, if_true, Bool.false_eq_true,
    if_false]

/-- A state check that observes a change to `"complete"` on a free lock: the
state is stored, the lock taken, the `ready` list run, and the lock released if
that loop returns. -/
theorem checkState_complete_free (h : Host) (a : App) (hfree : a.lock = false)
    (hs : "complete" ≠ a.state) :
    checkState h a "complete" =
      if (invokeAll h Slot.ready { a with state := "complete", lock := true }
          a.ready).returned = true then
        { app := App.Unlock (invokeAll h Slot.ready
            { a with state := "complete", lock := true } a.ready).app,
          events := Event.eval "window.document.readyState" ::
            (invokeAll h Slot.ready { a with state := "complete", lock := true }
              a.ready).events,
          returned := true }
      else
        { app := (invokeAll h Slot.ready { a with state := "complete", lock := true }
            a.ready).app,
          events := Event.eval "window.document.readyState" ::
            (invokeAll h Slot.ready { a with state := "complete", lock := true }
              a.ready).events,
          returned := false } := by
  obtain ⟨id, dir, state, lock, bounds, load, ready⟩ := a
  simp only at hfree hs; subst hfree
  have hic : ¬ ("complete" : String) = "interactive" := by decide
  simp only [checkState, App.Lock, ne_eq, hs, not_false_eq_true, if_true, Bool.false_eq_true,
    if_false, hic]

/-- A state check that observes a change to a state other than `"interactive"`
and `"complete"` stores it and does nothing else. -/
theorem checkState_other (h : Host) (a : App) (s : String) (hi : s ≠ "interactive")
    (hc : s ≠ "complete") :
    checkState h a s =
      { app := { a with state := s }, events := [Event.eval "window.document.readyState"],
        returned := true } := by
  by_cases hs : s = a.state
  · subst hs; rw [checkState_same]
  · simp [checkState, hs, hi, hc]

/-- What a state check invokes: nothing, or what the loop over the `load` list
invokes (observed `"interactive"`), or what the loop over the `ready` list
invokes (observed `"complete"`). -/
theorem invoked_checkState_cases (h : Host) (a : App) (s : String) :
    invoked (checkState h a s).events = [] ∨
    (s = "interactive" ∧ ∃ a1, invoked (checkState h a s).events =
      invoked (invokeAll h Slot.load a1 a.load).events) ∨
    (s = "complete" ∧ ∃ a1, invoked (checkState h a s).events =
      invoked (invokeAll h Slot.ready a1 a.ready).events) := by
  cases hl : a.lock with
  | true => left; rw [(checkState_held h a s hl).2.1]; rfl
  | false =>
    by_cases hs : s = a.state
    · subst hs; left; rw [checkState_same]; rfl
    · by_cases hi : s = "interactive"
      · subst hi
        right; left
        refine ⟨rfl, { a with state := "interactive", lock := true }, ?_⟩
        rw [checkState_interactive_free h a hl hs]
        split <;> exact invoked_probe_cons _
      · by_cases hc : s = "complete"
        · subst hc
          right; right
          refine ⟨rfl, { a with state := "complete", lock := true }, ?_⟩
          rw [checkState_complete_free h a hl hs]
          split <;> exact invoked_probe_cons _
        · left; rw [checkState_other h a s hi hc]; rfl

/-- A state check on a free lock, when no callback of the list it runs takes
the lock in its body: it returns with the lock free again, stores the observed
state, and invokes the whole `load` list on a change to `"interactive"`, the
whole `ready` list on a change to `"complete"`, nothing otherwise. -/
theorem checkState_free (h : Host) (a : App) (s : String) (hfree : a.lock = false)
    (hload : s = "interactive" → ∀ fn ∈ a.load, ∀ c ∈ h.body fn, c.locks = false)
    (hready : s = "complete" → ∀ fn ∈ a.ready, ∀ c ∈ h.body fn, c.locks = false) :
    (checkState h a s).returned = true ∧
    (checkState h a s).app.lock = false ∧ (checkState h a s).app.state = s ∧
    (checkState h a s).app.bounds = a.bounds ∧ (checkState h a s).app.load = a.load ∧
    (checkState h a s).app.ready = a.ready ∧
    invoked (checkState h a s).events =
      (if s ≠ a.state ∧ s = "interactive" then a.load.map (fun f => (Slot.load, f))
       else if s ≠ a.state ∧ s = "complete" then a.ready.map (fun f => (Slot.ready, f))
       else []) := by
  by_cases hs : s = a.state
  · subst hs
    rw [checkState_same]
    refine ⟨rfl, hfree, rfl, rfl, rfl, rfl, ?_⟩
    rw [if_neg (fun hh => hh.1 rfl), if_neg (fun hh => hh.1 rfl)]
    rfl
  · by_cases hi : s = "interactive"
    · subst hi
      obtain ⟨i1, i2, i3, i4, i5, i6, i7⟩ := invokeAll_held h Slot.load
        { a with state := "interactive", lock := true } a.load rfl (hload rfl)
      rw [checkState_interactive_free h a hfree hs, if_pos i1, if_pos ⟨hs, rfl⟩]
      exact ⟨rfl, rfl, i4, i5, i6, i7, by rw [invoked_probe_cons, i2]⟩
    · by_cases hc : s = "complete"
      · subst hc
        obtain ⟨i1, i2, i3, i4, i5, i6, i7⟩ := invokeAll_held h Slot.ready
          { a with state := "complete", lock := true } a.ready rfl (hready rfl)
        rw [checkState_complete_free h a hfree hs, if_pos i1, if_neg (fun hh => hi hh.2),
          if_pos ⟨hs, rfl⟩]
        exact ⟨rfl, rfl, i4, i5, i6, i7, by rw [invoked_probe_cons, i2]⟩
      · rw [checkState_other h a s hi hc, if_neg (fun hh => hi hh.2), if_neg (fun hh => hc hh.2)]
        exact ⟨rfl, hfree, rfl, rfl, rfl, rfl, rfl⟩

/-! ## Sequences of calls -/

theorem run_cons (h : Host) (a : App) (op : Op) (ops : List Op) :
    run h a (op :: ops) =
      ((run h (step h a op).app ops).1, (step h a op).events ++ (run h (step h a op).app ops).2) :=
  rfl

theorem run_append (h : Host) (a : App) (xs ys : List Op) :
    run h a (xs ++ ys) =
      ((run h (run h a xs).1 ys).1, (run h a xs).2 ++ (run h (run h a xs).1 ys).2) := by
  induction xs generalizing a with
  | nil => rfl
  | cons x xs ih =>
    rw [List.cons_append, run_cons, run_cons, ih]
    simp only [List.append_assoc]

/-- Registering callbacks with `Load` on a free lock appends them in order. -/
theorem run_loads (h : Host) (a : App) (fs : List Callback) (hfree : a.lock = false) :
    run h a (fs.map Op.Load) = ({ a with load := a.load ++ fs }, []) := by
  induction fs generalizing a with
  | nil => simp [run]
  | cons f fs ih =>
    rw [List.map_cons, run_cons]
    have hstep : step h a (Op.Load f) = a.Load f := rfl
    rw [hstep, load_free a f hfree]
    dsimp only
    rw [ih { a with load := a.load ++ [f] } hfree]
    simp

/-- Registering callbacks with `Ready` on a free lock appends them in order. -/
theorem run_readys (h : Host) (a : App) (fs : List Callback) (hfree : a.lock = false) :
    run h a (fs.map Op.Ready) = ({ a with ready := a.ready ++ fs }, []) := by
  induction fs generalizing a with
  | nil => simp [run]
  | cons f fs ih =>
    rw [List.map_cons, run_cons]
    have hstep : step h a (Op.Ready f) = a.Ready f := rfl
    rw [hstep, ready_free a f hfree]
    dsimp only
    rw [ih { a with ready := a.ready ++ [f] } hfree]
    simp

/-- Bounds checks on a free lock: the stored bounds end up as the latest
successful answer, everything else is untouched, nothing is encoded. -/
theorem run_checkBounds (h : Host) (a : App) (qs : List (Except Err Bounds))
    (hfree : a.lock = false) :
    (run h a (qs.map Op.checkBounds)).1 = { a with bounds := (lastOk qs).getD a.bounds } ∧
    encoded (run h a (qs.map Op.checkBounds)).2 = [] := by
  induction qs generalizing a with
  | nil => exact ⟨rfl, rfl⟩
  | cons q qs ih =>
    rw [List.map_cons, run_cons]
    have hstep : step h a (Op.checkBounds q) = checkBounds a q := rfl
    rw [hstep]
    cases q with
    | error e =>
      rw [checkBounds_error]
      obtain ⟨h1, h2⟩ := ih a hfree
      refine ⟨?_, ?_⟩
      · simp only [h1, lastOk]
        cases lastOk qs <;> rfl
      · simp only [encoded_append, h2]; rfl
    | ok b =>
      rw [checkBounds_ok_free a b hfree]
      obtain ⟨h1, h2⟩ := ih { a with bounds := b } hfree
      refine ⟨?_, ?_⟩
      · simp only [h1, lastOk]
        cases lastOk qs <;> rfl
      · simp only [encoded_append, h2]; rfl

theorem encoded_write (h : Host) (path : String) (b : Bounds) :
    encoded (write h path b).2 =
      match h.osCreate path with
      | none => [(path, b)]
      | some _ => [] := by
  cases hc : h.osCreate path with
  | some e => simp only [write, hc]; rfl
  | none =>
    simp only [write, hc]
    have : ∀ evs, encoded ([Event.create path, Event.encode path "  " b] ++ evs) =
        (path, b) :: encoded evs := fun _ => rfl
    rw [this, encoded_logClose]


/-- One call on a held lock: the lock stays held, bounds and callback lists
stay as they are, no callback is invoked and nothing is encoded. -/
theorem step_held (h : Host) (a : App) (op : Op) (hheld : a.lock = true) :
    (step h a op).app.lock = true ∧ (step h a op).app.bounds = a.bounds ∧
    (step h a op).app.load = a.load ∧ (step h a op).app.ready = a.ready ∧
    invoked (step h a op).events = [] ∧ encoded (step h a op).events = [] := by
  cases op with
  | Load fn =>
    have : step h a (Op.Load fn) = a.Load fn := rfl
    rw [this, load_held a fn hheld]; exact ⟨hheld, rfl, rfl, rfl, rfl, rfl⟩
  | Ready fn =>
    have : step h a (Op.Ready fn) = a.Ready fn := rfl
    rw [this, ready_held a fn hheld]; exact ⟨hheld, rfl, rfl, rfl, rfl, rfl⟩
  | InjectCSS css => exact ⟨hheld, rfl, rfl, rfl, rfl, rfl⟩
  | InjectScript script => exact ⟨hheld, rfl, rfl, rfl, rfl, rfl⟩
  | InjectScriptSrc url => exact ⟨hheld, rfl, rfl, rfl, rfl, rfl⟩
  | Dispose =>
    have : step h a Op.Dispose = a.Dispose h := rfl
    rw [this, dispose_held h a hheld]; exact ⟨hheld, rfl, rfl, rfl, rfl, rfl⟩
  | checkBounds q =>
    have : step h a (Op.checkBounds q) = checkBounds a q := rfl
    rw [this]
    cases q with
    | error e => rw [checkBounds_error]; exact ⟨hheld, rfl, rfl, rfl, rfl, rfl⟩
    | ok b => rw [checkBounds_ok_held a b hheld]; exact ⟨hheld, rfl, rfl, rfl, rfl, rfl⟩
  | checkState s =>
    have : step h a (Op.checkState s) = checkState h a s := rfl
    rw [this, (checkState_held h a s hheld).1, (checkState_held h a s hheld).2.1]
    exact ⟨hheld, rfl, rfl, rfl, rfl, rfl⟩

/-- Any sequence of calls on a held lock: the lock stays held, bounds and
callback lists never change, no callback is invoked and nothing is encoded. -/
theorem run_held (h : Host) (a : App) (ops : List Op) (hheld : a.lock = true) :
    (run h a ops).1.lock = true ∧ (run h a ops).1.bounds = a.bounds ∧
    (run h a ops).1.load = a.load ∧ (run h a ops).1.ready = a.ready ∧
    invoked (run h a ops).2 = [] ∧ encoded (run h a ops).2 = [] := by
  induction ops generalizing a with
  | nil => exact ⟨hheld, rfl, rfl, rfl, rfl, rfl⟩
  | cons op ops ih =>
    obtain ⟨s1, s2, s3, s4, s5, s6⟩ := step_held h a op hheld
    obtain ⟨r1, r2, r3, r4, r5, r6⟩ := ih (step h a op).app s1
    rw [run_cons]
    refine ⟨r1, r2.trans s2, r3.trans s3, r4.trans s4, ?_, ?_⟩
    · simp only [invoked_append, s5, r5]; rfl
    · simp only [encoded_append, s6, r6]; rfl

/-- A call that leaves the observed state where it is invokes nothing. -/
theorem step_stays (h : Host) (a : App) (op : Op) (hst : op.staysAt a.state = true) :
    (step h a op).app.state = a.state ∧ invoked (step h a op).events = [] := by
  cases op with
  | Load fn =>
    have : step h a (Op.Load fn) = a.Load fn := rfl
    rw [this]
    cases hl : a.lock with
    | true => rw [load_held a fn hl]; exact ⟨rfl, rfl⟩
    | false => rw [load_free a fn hl]; exact ⟨rfl, rfl⟩
  | Ready fn =>
    have : step h a (Op.Ready fn) = a.Ready fn := rfl
    rw [this]
    cases hl : a.lock with
    | true => rw [ready_held a fn hl]; exact ⟨rfl, rfl⟩
    | false => rw [ready_free a fn hl]; exact ⟨rfl, rfl⟩
  | InjectCSS css => exact ⟨rfl, rfl⟩
  | InjectScript script => exact ⟨rfl, rfl⟩
  | InjectScriptSrc url => exact ⟨rfl, rfl⟩
  | Dispose =>
    have : step h a Op.Dispose = a.Dispose h := rfl
    rw [this]
    refine ⟨?_, invoked_dispose h a⟩
    cases hl : a.lock with
    | true => rw [dispose_held h a hl]
    | false => rw [dispose_free h a hl]
  | checkBounds q =>
    have : step h a (Op.checkBounds q) = checkBounds a q := rfl
    rw [this]
    cases q with
    | error e => rw [checkBounds_error]; exact ⟨rfl, rfl⟩
    | ok b =>
      cases hl : a.lock with
      | true => rw [checkBounds_ok_held a b hl]; exact ⟨rfl, rfl⟩
      | false => rw [checkBounds_ok_free a b hl]; exact ⟨rfl, rfl⟩
  | checkState s =>
    have hs : s = a.state := by simpa [Op.staysAt] using hst
    have : step h a (Op.checkState s) = checkState h a s := rfl
    rw [this, hs, checkState_same]
    exact ⟨rfl, rfl⟩

/-- As long as every state check observes the stored state, no callback is
invoked and the stored state stays. -/
theorem run_stays (h : Host) (a : App) (ops : List Op)
    (hst : ∀ op ∈ ops, op.staysAt a.state = true) :
    (run h a ops).1.state = a.state ∧ invoked (run h a ops).2 = [] := by
  induction ops generalizing a with
  | nil => exact ⟨rfl, rfl⟩
  | cons op ops ih =>
    obtain ⟨s1, s2⟩ := step_stays h a op (hst op (List.mem_cons_self _ _))
    have hst2 : ∀ o ∈ ops, o.staysAt (step h a op).app.state = true := by
      intro o ho; rw [s1]; exact hst o (List.mem_cons_of_mem _ ho)
    obtain ⟨r1, r2⟩ := ih (step h a op).app hst2
    rw [run_cons]
    refine ⟨r1.trans s1, ?_⟩
    simp only [invoked_append, s2, r2]; rfl

/-- Either every call leaves the observed state at `c`, or there is a first
state check that observes something else. -/
theorem first_change (c : String) (ops : List Op) :
    (∀ op ∈ ops, op.staysAt c = true) ∨
    ∃ pre s post, ops = pre ++ Op.checkState s :: post ∧ s ≠ c ∧
      ∀ op ∈ pre, op.staysAt c = true := by
  induction ops with
  | nil => left; intro op hop; cases hop
  | cons o ops ih =>
    by_cases ho : o.staysAt c = true
    · rcases ih with hall | ⟨pre, s, post, heq, hs, hpre⟩
      · left
        intro op hop
        rcases List.mem_cons.1 hop with rfl | hmem
        · exact ho
        · exact hall op hmem
      · right
        refine ⟨o :: pre, s, post, by rw [heq]; rfl, hs, ?_⟩
        intro op hop
        rcases List.mem_cons.1 hop with rfl | hmem
        · exact ho
        · exact hpre op hmem
    · right
      cases o with
      | checkState s =>
        refine ⟨[], s, ops, rfl, ?_, fun op hop => by cases hop⟩
        intro hsc; apply ho; simp [Op.staysAt, hsc]
      | _ => exact absurd rfl ho

/-- A state check that observes something other than `"complete"` invokes no
callback of the `ready` list. -/
theorem no_ready_checkState (h : Host) (a : App) (s : String) (hs : s ≠ "complete")
    (fn : Callback) : (Slot.ready, fn) ∉ invoked (checkState h a s).events := by
  intro hmem
  rcases invoked_checkState_cases h a s with h0 | ⟨-, a1, h1⟩ | ⟨hc, -⟩
  · rw [h0] at hmem; cases hmem
  · rw [h1] at hmem
    have := invoked_invokeAll_slot h Slot.load a1 a.load _ hmem
    cases this
  · exact hs hc

/-- The `App` that `NewApp` returns: counter 0, state `"complete"`, free lock,
empty callback lists, the config directory as `dir`. -/
theorem newApp_fresh (h : Host) (name url : String) (width height : Int) (a : App)
    (hnew : (NewApp h name url width height).app = some a) :
    a.id = 0 ∧ a.dir = (configDir h name).1 ∧ a.state = "complete" ∧ a.lock = false ∧
    a.load = [] ∧ a.ready = [] := by
  obtain ⟨w, ht, b, pre, -, -, -, -, hres⟩ := newApp_shape h name url width height
  rcases hres with ⟨e, -, hn⟩ | ⟨-, logs, -, -, hn⟩
  · rw [hn] at hnew; exact absurd hnew (by simp)
  · rw [hn] at hnew
    simp only [Option.some.injEq] at hnew
    subst hnew
    exact ⟨rfl, rfl, rfl, rfl, rfl, rfl⟩

/-! ## Readiness callbacks -/

/-- C9: the `App` that `NewApp` returns has stored state `"complete"`; a first
state check that observes `"complete"` invokes nothing; no callback is invoked
by any sequence of calls in which every state check observes `"complete"`; and
whenever a sequence of calls does invoke a ready-callback, the invocation
happens after a state check of that sequence that observed a state other than
`"complete"`. -/
theorem fresh_app_fires_ready_only_after_change (h h2 : Host) (name url : String)
    (width height : Int) (a : App)
    (hnew : (NewApp h name url width height).app = some a) :
    a.state = "complete" ∧
    invoked (checkState h2 a "complete").events = [] ∧
    (∀ ops : List Op, (∀ op ∈ ops, op.staysAt "complete" = true) →
      invoked (run h2 a ops).2 = []) ∧
    (∀ (ops : List Op) (fn : Callback), (Slot.ready, fn) ∈ invoked (run h2 a ops).2 →
      ∃ pre s post, ops = pre ++ Op.checkState s :: post ∧ s ≠ "complete" ∧
        invoked (run h2 a pre).2 = [] ∧
        (Slot.ready, fn) ∈
          invoked (run h2 (run h2 a (pre ++ [Op.checkState s])).1 post).2) := by
  obtain ⟨-, -, hst, -, -, -⟩ := newApp_fresh h name url width height a hnew
  have hstay : ∀ ops : List Op, (∀ op ∈ ops, op.staysAt "complete" = true) →
      (run h2 a ops).1.state = "complete" ∧ invoked (run h2 a ops).2 = [] := by
    intro ops hops
    have := run_stays h2 a ops (by rw [hst]; exact hops)
    rw [hst] at this
    exact this
  refine ⟨hst, ?_, fun ops hops => (hstay ops hops).2, ?_⟩
  · have := checkState_same h2 a
    rw [hst] at this
    rw [this]; rfl
  · intro ops fn hmem
    rcases first_change "complete" ops with hall | ⟨pre, s, post, heq, hs, hpre⟩
    · rw [(hstay ops hall).2] at hmem; cases hmem
    · refine ⟨pre, s, post, heq, hs, (hstay pre hpre).2, ?_⟩
      have hsplit : pre ++ Op.checkState s :: post = (pre ++ [Op.checkState s]) ++ post := by
        simp
      rw [heq, hsplit, run_append] at hmem
      simp only [invoked_append] at hmem
      rcases List.mem_append.1 hmem with hl | hr
      · exfalso
        rw [run_append] at hl
        simp only [invoked_append, (hstay pre hpre).2, List.nil_append] at hl
        have hone : (run h2 (run h2 a pre).1 [Op.checkState s]).2 =
            (checkState h2 (run h2 a pre).1 s).events ++ [] := rfl
        rw [hone, List.append_nil] at hl
        exact no_ready_checkState h2 _ s hs fn hl
      · exact hr

/-- The state checks do what the readiness claims describe as long as the lock
is free and no callback takes the lock in its body: after registering `fs` with
successive `Load` calls and `gs` with successive `Ready` calls, the interactive
list is the old list followed by `fs` and the ready list the old list followed
by `gs`; a check observing a new state `s` returns, stores `s`, and invokes
exactly the interactive list if `s` is `"interactive"`, exactly the ready list
if `s` is `"complete"`, each entry once and in registration order, and nothing
otherwise. -/
theorem checkState_fires_when_free (h : Host) (a : App) (fs gs : List Callback) (s : String)
    (hfree : a.lock = false) (hbody : ∀ fn c, c ∈ h.body fn → c.locks = false) :
    (run h a (fs.map Op.Load ++ gs.map Op.Ready)).1.load = a.load ++ fs ∧
    (run h a (fs.map Op.Load ++ gs.map Op.Ready)).1.ready = a.ready ++ gs ∧
    (run h a (fs.map Op.Load ++ gs.map Op.Ready)).1.state = a.state ∧
    (checkState h (run h a (fs.map Op.Load ++ gs.map Op.Ready)).1 s).returned = true ∧
    (checkState h (run h a (fs.map Op.Load ++ gs.map Op.Ready)).1 s).app.state = s ∧
    (checkState h (run h a (fs.map Op.Load ++ gs.map Op.Ready)).1 s).app.lock = false ∧
    invoked (checkState h (run h a (fs.map Op.Load ++ gs.map Op.Ready)).1 s).events =
      (if s ≠ a.state ∧ s = "interactive" then (a.load ++ fs).map (fun f => (Slot.load, f))
       else if s ≠ a.state ∧ s = "complete" then (a.ready ++ gs).map (fun f => (Slot.ready, f))
       else []) := by
  have hfree1 : ({ a with load := a.load ++ fs } : App).lock = false := hfree
  have hb : (run h a (fs.map Op.Load ++ gs.map Op.Ready)).1 =
      { a with load := a.load ++ fs, ready := a.ready ++ gs } := by
    rw [run_append, run_loads h a fs hfree]
    dsimp only
    rw [run_readys h { a with load := a.load ++ fs } gs hfree1]
  rw [hb]
  have hfree2 : ({ a with load := a.load ++ fs, ready := a.ready ++ gs } : App).lock = false :=
    hfree
  obtain ⟨c1, c2, c3, -, -, -, c7⟩ :=
    checkState_free h { a with load := a.load ++ fs, ready := a.ready ++ gs } s hfree2
      (fun _ fn _ c hc => hbody fn c hc) (fun _ fn _ c hc => hbody fn c hc)
  exact ⟨rfl, rfl, rfl, c1, c3, c2, c7⟩

/-- A callback that calls `Load` parks the state check that invokes it: on a
host whose callback `7` injects a style sheet and then calls `Load`, with
interactive list `[7, 10]`, free lock and stored state `"loading"`, the check
that observes `"interactive"` invokes `7`, never reaches `10`, does not return,
and leaves the lock held. -/
theorem checkState_reentrant_callback_parks :
    (run reentrantHost liveLoading [Op.Load 10]).1.lock = false ∧
    (run reentrantHost liveLoading [Op.Load 10]).1.load = [7, 10] ∧
    invoked (checkState reentrantHost (run reentrantHost liveLoading [Op.Load 10]).1
      "interactive").events = [(Slot.load, 7)] ∧
    (checkState reentrantHost (run reentrantHost liveLoading [Op.Load 10]).1
      "interactive").returned = false ∧
    (checkState reentrantHost (run reentrantHost liveLoading [Op.Load 10]).1
      "interactive").app.lock = true := by
  decide

/-- C5: at the failing input the interactive callback is not invoked.  From
`NewApp`, after `Load 7`, `Ready 9` and a poller iteration that observes
`"loading"`, the check that observes `"interactive"` invokes `7` once and
returns as long as `Dispose` has not run; once `Dispose` has run (the lock it
took is never released), the same check stores `"interactive"`, invokes nothing
and never returns. -/
theorem checkState_interactive_parks_after_dispose :
    (NewApp demoHost "MyApp" "http://localhost" 800 600).app = some demoApp ∧
    (liveLoading.lock = false ∧ liveLoading.state = "loading" ∧ liveLoading.load = [7] ∧
      invoked (checkState demoHost liveLoading "interactive").events = [(Slot.load, 7)] ∧
      (checkState demoHost liveLoading "interactive").returned = true) ∧
    (disposedLoading.lock = true ∧ disposedLoading.state = "loading" ∧
      disposedLoading.load = [7] ∧
      invoked (checkState demoHost disposedLoading "interactive").events = [] ∧
      (checkState demoHost disposedLoading "interactive").returned = false ∧
      (checkState demoHost disposedLoading "interactive").app.state = "interactive") := by
  decide

/-- C6: at the failing input the ready callback is not invoked.  From `NewApp`,
after `Load 7`, `Ready 9` and poller iterations that observe `"loading"` and
`"interactive"`, the check that observes `"complete"` invokes `9` once and
returns as long as `Dispose` has not run; once `Dispose` has run (the lock it
took is never released), the same check stores `"complete"`, invokes nothing
and never returns. -/
theorem checkState_complete_parks_after_dispose :
    (NewApp demoHost "MyApp" "http://localhost" 800 600).app = some demoApp ∧
    (liveInteractive.lock = false ∧ liveInteractive.state = "interactive" ∧
      liveInteractive.ready = [9] ∧
      invoked (checkState demoHost liveInteractive "complete").events = [(Slot.ready, 9)] ∧
      (checkState demoHost liveInteractive "complete").returned = true) ∧
    (disposedInteractive.lock = true ∧ disposedInteractive.state = "interactive" ∧
      disposedInteractive.ready = [9] ∧
      invoked (checkState demoHost disposedInteractive "complete").events = [] ∧
      (checkState demoHost disposedInteractive "complete").returned = false ∧
      (checkState demoHost disposedInteractive "complete").app.state = "complete") := by
  decide

/-- C8: at the failing input a change of state invokes no callback.  On the
`App` with stored state `"loading"`, interactive list `[7]` and ready list
`[9]`, a check observing `"interactive"` invokes `7` and one observing
`"complete"` invokes `9` as long as `Dispose` has not run; once `Dispose` has
run, each of the two checks stores the new state, invokes nothing and never
returns, while a check observing `"unloaded"` or the stored state itself still
returns with no callback. -/
theorem checkState_change_parks_after_dispose :
    (liveLoading.lock = false ∧ liveLoading.state = "loading" ∧
      invoked (checkState demoHost liveLoading "interactive").events = [(Slot.load, 7)] ∧
      invoked (checkState demoHost liveLoading "complete").events = [(Slot.ready, 9)]) ∧
    (disposedLoading.lock = true ∧ disposedLoading.state = "loading" ∧
      disposedLoading.load = [7] ∧ disposedLoading.ready = [9] ∧
      invoked (checkState demoHost disposedLoading "interactive").events = [] ∧
      (checkState demoHost disposedLoading "interactive").returned = false ∧
      invoked (checkState demoHost disposedLoading "complete").events = [] ∧
      (checkState demoHost disposedLoading "complete").returned = false ∧
      (checkState demoHost disposedLoading "complete").app.state = "complete") ∧
    ((checkState demoHost disposedLoading "unloaded").returned = true ∧
      (checkState demoHost disposedLoading "unloaded").app.state = "unloaded" ∧
      (checkState demoHost disposedLoading "loading").returned = true) := by
  decide

/-! ## Disposal and the lock -/

/-- On a free lock, a sequence of bounds checks followed by `Dispose` does what
the disposal claim describes: the stored bounds before `Dispose` are those of
the most recent successful query, or the ones stored before if none succeeded;
`Dispose` hands exactly that record to the encoder for `<dir>/Window.json` when
the file can be created (and encodes nothing otherwise); and `Dispose` returns,
with nothing but the `App` as its result, whether or not the write fails. -/
theorem dispose_writes_stored_bounds_when_free (h : Host) (a : App)
    (qs : List (Except Err Bounds)) (hfree : a.lock = false) :
    (run h a (qs.map Op.checkBounds)).1.bounds = (lastOk qs).getD a.bounds ∧
    encoded (run h a (qs.map Op.checkBounds ++ [Op.Dispose])).2 =
      (match h.osCreate (h.join [a.dir, "Window.json"]) with
        | none => [(h.join [a.dir, "Window.json"], (lastOk qs).getD a.bounds)]
        | some _ => []) ∧
    (App.Dispose h (run h a (qs.map Op.checkBounds)).1).returned = true ∧
    (run h a (qs.map Op.checkBounds ++ [Op.Dispose])).1 =
      { a with bounds := (lastOk qs).getD a.bounds, lock := true } := by
  obtain ⟨hrun, henc⟩ := run_checkBounds h a qs hfree
  have hfree2 : ({ a with bounds := (lastOk qs).getD a.bounds } : App).lock = false := hfree
  have hd := dispose_free h { a with bounds := (lastOk qs).getD a.bounds } hfree2
  have hone : ∀ x : App, run h x [Op.Dispose] = ((x.Dispose h).app, (x.Dispose h).events ++ []) :=
    fun _ => rfl
  refine ⟨by rw [hrun], ?_, by rw [hrun, hd], ?_⟩
  · rw [run_append, hrun, hone, hd]
    simp only [encoded_append, henc, List.nil_append, List.append_nil]
    rw [encoded_write]
    have : encoded (match (write h (h.join [a.dir, "Window.json"])
        ((lastOk qs).getD a.bounds)).1 with
        | some m => [Event.log ["stop err:", m]]
        | none => []) = [] := by
      split <;> rfl
    simp only [this, List.append_nil]
  · rw [run_append, hrun, hone, hd]

/-- C7: at the failing input `Dispose` writes no record.  On the fresh `App`, a
successful bounds query followed by `Dispose` encodes the bounds of that query
for `Window.json`; after a first `Dispose` (the lock it took is never
released), the same bounds query parks without storing the new bounds, and the
`Dispose` that follows encodes nothing and never returns.  (A `Dispose` on a
free lock whose file cannot be created does return, having encoded nothing.) -/
theorem second_dispose_writes_nothing :
    (NewApp demoHost "MyApp" "http://localhost" 800 600).app = some demoApp ∧
    encoded (run demoHost demoApp
      ([Except.ok savedBounds].map Op.checkBounds ++ [Op.Dispose])).2 =
        [("/home/u/AppData/Local/MyApp/Window.json", savedBounds)] ∧
    (disposedFresh.lock = true ∧ disposedFresh.bounds = demoApp.bounds) ∧
    (checkBounds disposedFresh (Except.ok savedBounds)).returned = false ∧
    (run demoHost disposedFresh ([Except.ok savedBounds].map Op.checkBounds)).1.bounds =
      demoApp.bounds ∧
    encoded (run demoHost disposedFresh
      ([Except.ok savedBounds].map Op.checkBounds ++ [Op.Dispose])).2 = [] ∧
    (App.Dispose demoHost
      (run demoHost disposedFresh ([Except.ok savedBounds].map Op.checkBounds)).1).returned =
        false ∧
    ((App.Dispose readOnlyHost demoApp).returned = true ∧
      encoded (App.Dispose readOnlyHost demoApp).events = []) := by
  decide

/-- C10: with the mutex as a held/free flag, `Load`, `Ready` and a bounds
update return exactly when they start with the flag free, and then leave it
free; `Dispose` returns exactly when it starts with the flag free and in every
case leaves it held.  Hence after any `Dispose`, whatever calls follow, the
flag stays held, the stored bounds and both callback lists stay as they were,
no callback is invoked, nothing more is written, and from the state reached no
`Load`, `Ready`, bounds update, second `Dispose` or callback-firing state check
returns.  (A bounds check whose query fails takes no lock and changes nothing.) -/
theorem dispose_keeps_lock_forever (h : Host) (a : App) (ops : List Op) :
    (∀ fn, ((a.Load fn).returned = true ↔ a.lock = false) ∧
      ((a.Load fn).returned = true → (a.Load fn).app.lock = false)) ∧
    (∀ fn, ((a.Ready fn).returned = true ↔ a.lock = false) ∧
      ((a.Ready fn).returned = true → (a.Ready fn).app.lock = false)) ∧
    (∀ b, ((checkBounds a (Except.ok b)).returned = true ↔ a.lock = false) ∧
      ((checkBounds a (Except.ok b)).returned = true →
        (checkBounds a (Except.ok b)).app.lock = false)) ∧
    ((a.Dispose h).returned = true ↔ a.lock = false) ∧
    (a.Dispose h).app.lock = true ∧
    (a.Dispose h).app.bounds = a.bounds ∧ (a.Dispose h).app.load = a.load ∧
    (a.Dispose h).app.ready = a.ready ∧
    (run h (a.Dispose h).app ops).1.lock = true ∧
    (run h (a.Dispose h).app ops).1.bounds = a.bounds ∧
    (run h (a.Dispose h).app ops).1.load = a.load ∧
    (run h (a.Dispose h).app ops).1.ready = a.ready ∧
    invoked (run h (a.Dispose h).app ops).2 = [] ∧
    encoded (run h (a.Dispose h).app ops).2 = [] ∧
    (∀ fn, ((run h (a.Dispose h).app ops).1.Load fn).returned = false) ∧
    (∀ fn, ((run h (a.Dispose h).app ops).1.Ready fn).returned = false) ∧
    (∀ b, (checkBounds (run h (a.Dispose h).app ops).1 (Except.ok b)).returned = false) ∧
    ((run h (a.Dispose h).app ops).1.Dispose h).returned = false ∧
    (∀ s, s ≠ (run h (a.Dispose h).app ops).1.state → s = "interactive" ∨ s = "complete" →
      (checkState h (run h (a.Dispose h).app ops).1 s).returned = false) ∧
    (∀ e, (checkBounds a (Except.error e)).app = a ∧
      (checkBounds a (Except.error e)).returned = true) := by
  have hd : (a.Dispose h).app.lock = true ∧ (a.Dispose h).app.bounds = a.bounds ∧
      (a.Dispose h).app.load = a.load ∧ (a.Dispose h).app.ready = a.ready ∧
      ((a.Dispose h).returned = true ↔ a.lock = false) := by
    cases hl : a.lock with
    | true => rw [dispose_held h a hl]; exact ⟨hl, rfl, rfl, rfl, by simp⟩
    | false => rw [dispose_free h a hl]; exact ⟨rfl, rfl, rfl, rfl, by simp⟩
  obtain ⟨d1, d2, d3, d4, d5⟩ := hd
  obtain ⟨r1, r2, r3, r4, r5, r6⟩ := run_held h (a.Dispose h).app ops d1
  refine ⟨?_, ?_, ?_, d5, d1, d2, d3, d4, r1, r2.trans d2, r3.trans d3, r4.trans d4, r5, r6,
    ?_, ?_, ?_, ?_, ?_⟩
  · intro fn
    cases hl : a.lock with
    | true => rw [load_held a fn hl]; simp
    | false => rw [load_free a fn hl]; simp [hl]
  · intro fn
    cases hl : a.lock with
    | true => rw [ready_held a fn hl]; simp
    | false => rw [ready_free a fn hl]; simp [hl]
  · intro b
    cases hl : a.lock with
    | true => rw [checkBounds_ok_held a b hl]; simp
    | false => rw [checkBounds_ok_free a b hl]; simp [hl]
  · intro fn; rw [load_held _ fn r1]
  · intro fn; rw [ready_held _ fn r1]
  · intro b; rw [checkBounds_ok_held _ b r1]
  · rw [dispose_held h _ r1]
  · refine ⟨?_, fun e => ⟨rfl, rfl⟩⟩
    intro s hs hic
    exact (checkState_held h _ s r1).2.2.2 ⟨hs, hic⟩

/-! ## The theorems at concrete inputs -/

/-- C1 at a concrete input: a saved 1024x768 maximized window wins over the
caller's 800x600, also when `SetBounds` fails. -/
theorem newApp_saved_record_wins_witness :
    (read savedHost (savedHost.join [(configDir savedHost "MyApp").1, "Window.json"])
      Bounds.zero).1 = savedBounds ∧
    (read savedHost (savedHost.join [(configDir savedHost "MyApp").1, "Window.json"])
      Bounds.zero).2.1 = none ∧
    uiNewCalls (NewApp savedHost "MyApp" "http://localhost" 800 600).events =
      [("http://localhost", "/home/u/AppData/Local/MyApp", 1024, 768,
        ["--enable-extensions"])] ∧
    (NewApp savedHost "MyApp" "http://localhost" 800 600).app =
      some { demoApp with bounds := savedBounds } ∧
    setBoundsArgs (NewApp savedHost "MyApp" "http://localhost" 800 600).events =
      [savedBounds] ∧
    ({ demoApp with bounds := savedBounds } : App).bounds = savedBounds :=
  have w := newApp_saved_record_wins savedHost "MyApp" "http://localhost" 800 600 savedBounds
    (by decide) (by decide)
  ⟨by decide, by decide, w.1, by decide,
    (w.2.1 { demoApp with bounds := savedBounds } (by decide)).1,
    (w.2.1 { demoApp with bounds := savedBounds } (by decide)).2.1⟩

/-- C2 at a concrete input: a truncated `Window.json`, whose decode fills
`Left` and `Width` before failing, leaves `NewApp(..., 800, 600)` with
`{0, 0, 800, 600, "normal"}`. -/
theorem newApp_defaults_when_read_fails_witness :
    (read truncatedHost (truncatedHost.join [(configDir truncatedHost "MyApp").1, "Window.json"])
      Bounds.zero).1 = { Left := 40, Top := 0, Width := 1024, Height := 0, WindowState := "" } ∧
    (read truncatedHost (truncatedHost.join [(configDir truncatedHost "MyApp").1, "Window.json"])
      Bounds.zero).2.1 ≠ none ∧
    uiNewCalls (NewApp truncatedHost "MyApp" "http://localhost" 800 600).events =
      [("http://localhost", "/home/u/AppData/Local/MyApp", 800, 600,
        ["--enable-extensions"])] ∧
    (NewApp truncatedHost "MyApp" "http://localhost" 800 600).app = some demoApp ∧
    demoApp.bounds =
      { Left := 0, Top := 0, Width := 800, Height := 600, WindowState := "normal" } :=
  have w := newApp_defaults_when_read_fails truncatedHost "MyApp" "http://localhost" 800 600
    (by decide)
  ⟨by decide, by decide, w.1, by decide, w.2.1 demoApp (by decide)⟩

/-- C3 at concrete inputs: no hosted UI, so an error and no `App`; a failing
`SetBounds` or an unreadable record, and still an `App` and no error. -/
theorem newApp_fails_iff_ui_creation_fails_witness :
    ((NewApp noChromeHost "MyApp" "http://localhost" 800 600).err = some "chrome not found" ∧
      (NewApp noChromeHost "MyApp" "http://localhost" 800 600).app = none) ∧
    (savedHost.setBounds savedBounds = some "window not found" ∧
      ∃ a, (NewApp savedHost "MyApp" "http://localhost" 800 600).app = some a) ∧
    ∃ a, (NewApp truncatedHost "MyApp" "http://localhost" 800 600).app = some a :=
  ⟨match newApp_fails_iff_ui_creation_fails noChromeHost "MyApp" "http://localhost" 800 600 with
    | ⟨_, _, _, _, h3, _⟩ => ⟨by decide, h3.1 (by decide)⟩,
   match newApp_fails_iff_ui_creation_fails savedHost "MyApp" "http://localhost" 800 600 with
    | ⟨_, _, _, _, _, h4⟩ => ⟨by decide, h4.1 (by decide)⟩,
   match newApp_fails_iff_ui_creation_fails truncatedHost "MyApp" "http://localhost" 800 600 with
    | ⟨_, _, _, _, _, h4⟩ => h4.1 (by decide)⟩

/-- C4 at a concrete input: four interleaved injections on the fresh `App`
get the identifiers 1, 2, 3, 4. -/
theorem inject_ids_distinct_increasing_witness :
    injectIds demoApp [Inject.css "a", Inject.script "b", Inject.src "c", Inject.css "d"] =
      [1, 2, 3, 4] ∧
    (injectIds demoApp
      [Inject.css "a", Inject.script "b", Inject.src "c", Inject.css "d"]).Pairwise (· < ·) ∧
    (injectIds demoApp
      [Inject.css "a", Inject.script "b", Inject.src "c", Inject.css "d"]).Nodup :=
  have w := inject_ids_distinct_increasing demoApp
    [Inject.css "a", Inject.script "b", Inject.src "c", Inject.css "d"]
  ⟨by decide, (w.2.2.2 (by decide) (by decide)).2, w.2.2.1 (by decide)⟩

/-- C9 at a concrete input: on the fresh `App`, a registered ready-callback is
not invoked while the checks observe `"complete"`, and is invoked once a check
has observed `"loading"` before. -/
theorem fresh_app_fires_ready_only_after_change_witness :
    (NewApp demoHost "MyApp" "http://localhost" 800 600).app = some demoApp ∧
    demoApp.state = "complete" ∧
    invoked (run demoHost demoApp
      [Op.Ready 9, Op.checkState "complete", Op.checkState "complete"]).2 = [] ∧
    invoked (run demoHost demoApp
      [Op.Ready 9, Op.checkState "loading", Op.checkState "complete"]).2 = [(Slot.ready, 9)] :=
  have w := fresh_app_fires_ready_only_after_change demoHost demoHost "MyApp"
    "http://localhost" 800 600 demoApp (by decide)
  ⟨by decide, w.1,
    w.2.2.1 [Op.Ready 9, Op.checkState "complete", Op.checkState "complete"] (by decide),
    by decide⟩

/-- C10 at a concrete input: after `Dispose` on the fresh `App`, a `Load`, a
successful bounds query, a second `Dispose` and a check observing
`"interactive"` leave bounds and callback lists as they were, with the lock held. -/
theorem dispose_keeps_lock_forever_witness :
    (run demoHost (demoApp.Dispose demoHost).app
      [Op.Load 1, Op.checkBounds (Except.ok savedBounds), Op.Dispose,
        Op.checkState "interactive"]).1.lock = true ∧
    (run demoHost (demoApp.Dispose demoHost).app
      [Op.Load 1, Op.checkBounds (Except.ok savedBounds), Op.Dispose,
        Op.checkState "interactive"]).1.bounds = demoApp.bounds ∧
    (run demoHost (demoApp.Dispose demoHost).app
      [Op.Load 1, Op.checkBounds (Except.ok savedBounds), Op.Dispose,
        Op.checkState "interactive"]).1.load = demoApp.load :=
  have w := dispose_keeps_lock_forever demoHost demoApp
    [Op.Load 1, Op.checkBounds (Except.ok savedBounds), Op.Dispose, Op.checkState "interactive"]
  ⟨w.2.2.2.2.2.2.2.2.1, w.2.2.2.2.2.2.2.2.2.1, w.2.2.2.2.2.2.2.2.2.2.1⟩

end Lorcapp
